import Mathlib

/-!
# File-Explorer shell: tokenizer, mode parsing, dispatch, copy and search

A shallow embedding of `Assignment1.cpp`.  A `std::string` is a list of
characters; the loop of `split_quoted` is a left fold over the line; the
calls into `std::filesystem` act on an explicit tree of files, directories
and symbolic links that is threaded through the functions, together with the
`std::error_code` variables the source passes around.  The library calls
follow the C++ standard, libstdc++ and POSIX (`status` follows symbolic links,
`relative` is `weakly_canonical` followed by `lexically_relative`, path
resolution gives up after 40 links); `rename`, `chmod` and the opening of an
output stream are left open and passed to the dispatcher as a `Host`.
-/

namespace FileExplorer

/-! ## Strings and characters -/

/-- A `std::string`: the sequence of its `char` values. -/
abbrev Str := List Char

/-- The character `\` (code 92). -/
def backslash : Char := Char.ofNat 92

/-- The single quote character (code 39). -/
def squote : Char := Char.ofNat 39

/-- The double quote character (code 34). -/
def dquote : Char := Char.ofNat 34

/-- The terminator of a C string (code 0). -/
def nul : Char := Char.ofNat 0

/-- `std::isspace` in the "C" locale (the program never calls `setlocale`):
space, `\t`, `\n`, `\v`, `\f`, `\r`. -/
def isspace (c : Char) : Bool :=
  c == ' ' || c == '\t' || c == '\n' || c == Char.ofNat 11 || c == Char.ofNat 12 || c == '\r'

/-! ## `split_quoted` (lines 21-38) -/

/-- The local variables of `split_quoted`. -/
structure SplitState where
  v : List Str
  cur : Str
  in_single : Bool
  in_double : Bool
  esc : Bool
deriving DecidableEq, Repr

/-- One iteration of `for (char c : s)` in `split_quoted` (lines 26-34). -/
def split_step (st : SplitState) (c : Char) : SplitState :=
  if st.esc then { st with cur := st.cur ++ [c], esc := false }
  else if c == backslash then { st with esc := true }
  else if c == squote && !st.in_double then { st with in_single := !st.in_single }
  else if c == dquote && !st.in_single then { st with in_double := !st.in_double }
  else if isspace c && !st.in_single && !st.in_double then
    if !st.cur.isEmpty then { st with v := st.v ++ [st.cur], cur := [] } else st
  else { st with cur := st.cur ++ [c] }

/-- The state `split_quoted` starts its loop in (lines 22-24). -/
def split_init : SplitState := ⟨[], [], false, false, false⟩

/-- Line 36-37 of `split_quoted`: flush the accumulator and return `v`. -/
def split_finish (st : SplitState) : List Str :=
  if !st.cur.isEmpty then st.v ++ [st.cur] else st.v

/-- `split_quoted`: the tokens of a line. -/
def split_quoted (s : Str) : List Str :=
  split_finish (s.foldl split_step split_init)

/-! ## `parse_mode` (lines 102-108) -/

/-- `s.c_str()` as `strtol` reads it: the characters before the first NUL. -/
def c_str (s : Str) : Str := s.takeWhile (fun c => c != nul)

/-- A digit of base 8. -/
def isOctal (c : Char) : Bool := decide ('0' ≤ c) && decide (c ≤ '7')

/-- The value of a digit character. -/
def digitVal (c : Char) : Nat := c.toNat - '0'.toNat

/-- `LONG_MAX` of a 64-bit `long`. -/
def LONG_MAX : Int := 2 ^ 63 - 1

/-- `LONG_MIN` of a 64-bit `long`. -/
def LONG_MIN : Int := -(2 ^ 63)

/-- `std::strtol(nptr, &end, 8)`: skip leading white space, read an optional
sign, then the longest run of octal digits.  The result is the value (clamped
to the range of `long`) and the text `end` points at; when there is no digit,
the value is `0` and `end` is `nptr`. -/
def strtol8 (nptr : Str) : Int × Str :=
  let s1 := nptr.dropWhile isspace
  let signed : Bool × Str :=
    match s1 with
    | c :: r => if c == '-' then (true, r) else if c == '+' then (false, r) else (false, s1)
    | [] => (false, s1)
  let ds := signed.2.takeWhile isOctal
  let rest := signed.2.dropWhile isOctal
  if ds.isEmpty then (0, nptr)
  else
    let n : Int := (ds.foldl (fun acc c => acc * 8 + digitVal c) 0 : Nat)
    (if signed.1 then max (-n) LONG_MIN else min n LONG_MAX, rest)

/-- `parse_mode`: the `mode_t` (32 bits, unsigned) the source returns. -/
def parse_mode (s : Str) : Nat :=
  if s.isEmpty || decide (s.length > 4) then 0
  else
    let r := strtol8 (c_str s)
    if !r.2.isEmpty || decide (r.1 < 0) || decide (r.1 > 4095) then 0
    else r.1.toNat % 2 ^ 32

/-- The base-8 numeric value of a digit string, most significant digit first. -/
def octalValue (s : Str) : Nat := Nat.ofDigits 8 (s.reverse.map digitVal)

/-- A well-formed octal mode string: 1 to 4 characters, each in `0..7`. -/
def WellFormedOctal (s : Str) : Prop :=
  1 ≤ s.length ∧ s.length ≤ 4 ∧ ∀ c ∈ s, isOctal c = true

instance (s : Str) : Decidable (WellFormedOctal s) := by
  unfold WellFormedOctal; infer_instance

/-! ## Paths (`std::filesystem::path` on POSIX)

A path is the string it was built from.  Its elements are the pieces
between `/` separators; runs of separators count as one, and a separator
after the last filename gives an empty last element, as iterating a
`fs::path` does. -/

/-- A `fs::path`. -/
abbrev Path := Str

/-- The filenames of a path: its non-empty elements, root directory excluded. -/
def Path.parts (p : Path) : List Str :=
  (p.splitOnP (fun c => c == '/')).filter (fun c => !c.isEmpty)

/-- The elements of a path as iteration yields them, root directory excluded:
the filenames, and an empty element at the end when a separator follows the
last filename. -/
def Path.elements (p : Path) : List Str :=
  let cs := Path.parts p
  if !cs.isEmpty && p.getLast? == some '/' then cs ++ [[]] else cs

/-- `path::is_absolute` (equivalently `has_root_directory`). -/
def Path.is_absolute (p : Path) : Bool := p.head? == some '/'

/-- The path with the given elements. -/
def Path.ofParts (abs : Bool) (cs : List Str) : Path :=
  (if abs then ['/'] else []) ++ ['/'].intercalate cs

/-- `path::filename`: what follows the last separator. -/
def Path.filename (p : Path) : Str := (p.reverse.takeWhile (fun c => c != '/')).reverse

/-- `path::parent_path`: the path without its last element and without the
separators before it; the root directory is its own parent. -/
def Path.parent_path (p : Path) : Path :=
  let stem := ((p.reverse.dropWhile (fun c => c != '/')).dropWhile (fun c => c == '/')).reverse
  if stem.isEmpty && p.is_absolute then ['/'] else stem

/-- `operator/`: an absolute right operand replaces the left one; otherwise a
separator is added when the left operand ends in a filename. -/
def Path.append (p q : Path) : Path :=
  if q.is_absolute then q
  else if p.filename.isEmpty then p ++ q
  else p ++ ['/'] ++ q

/-- The element-wise core of `path::lexically_normal`: `.` and the empty
element are dropped, `x/..` cancels, `..` directly under the root is dropped.
`acc` is reversed. -/
def normParts (abs : Bool) : List Str → List Str → List Str
  | acc, [] => acc.reverse
  | acc, c :: cs =>
    if c = ['.'] ∨ c = [] then normParts abs acc cs
    else if c = ['.', '.'] then
      match acc with
      | [] => if abs then normParts abs [] cs else normParts abs [c] cs
      | a :: acc1 =>
        if a = ['.', '.'] then normParts abs (c :: a :: acc1) cs else normParts abs acc1 cs
    else normParts abs (c :: acc) cs

/-- `path::lexically_normal`.  A separator stays at the end when the path
ended in a separator, in `.` or in a cancelled `..`, unless the result ends
in `..`. -/
def Path.lexically_normal (p : Path) : Path :=
  if p.isEmpty then []
  else
    let es := Path.elements p
    let cs := normParts p.is_absolute [] es
    let last := es.getLast?
    let slash := (last == some [] || last == some ['.'] || last == some ['.', '.']) &&
      !cs.isEmpty && cs.getLast? != some ['.', '.']
    if cs.isEmpty && !p.is_absolute then ['.']
    else Path.ofParts p.is_absolute cs ++ (if slash then ['/'] else [])

/-- Drop the longest common prefix of two element lists (`std::mismatch`). -/
def mismatch : List Str → List Str → List Str × List Str
  | a :: as, b :: bs => if a = b then mismatch as bs else (a :: as, b :: bs)
  | as, bs => (as, bs)

/-- `path::lexically_relative`: `p` made relative to `base`, by elements only. -/
def Path.lexically_relative (p base : Path) : Path :=
  if p.is_absolute != base.is_absolute then []
  else
    let ab := mismatch (Path.elements p) (Path.elements base)
    if ab.1.isEmpty && ab.2.isEmpty then ['.']
    else
      let n : Int := ab.2.foldl
        (fun n c => if c = ['.', '.'] then n - 1 else if c = ['.'] ∨ c = [] then n else n + 1) 0
      if n < 0 then []
      else if n = 0 && (ab.1.isEmpty || ab.1.head? == some []) then ['.']
      else Path.ofParts false (List.replicate n.toNat ['.', '.'] ++ ab.1)

/-- `std::string::find(pat) != npos`: the position of the first occurrence. -/
def find : Str → Str → Option Nat
  | [], pat => if pat.isEmpty then some 0 else none
  | c :: s, pat =>
    if pat.isPrefixOf (c :: s) then some 0 else (find s pat).map (fun i => i + 1)

/-! ## The filesystem

The host filesystem is a tree of regular files, directories and symbolic
links.  A location is the list of names leading from the root to an entry,
with no `.`, `..` or symbolic link left in it. -/

/-- An entry of the filesystem. -/
inductive Node where
  | file (content : Str)
  | dir (entries : List (Str × Node))
  | symlink (target : Str)

/-- `fs::file_type`, as far as this tree has it. -/
inductive FileType where
  | none
  | not_found
  | regular
  | directory
  | symlink
deriving DecidableEq, Repr

/-- The `errno` values the tree can produce. -/
inductive Errc where
  | ENOENT
  | ENOTDIR
  | ELOOP
  | EEXIST
  | EISDIR
  | ENOTEMPTY
  | EINVAL
  | EBUSY
  | ENOTSUP
deriving DecidableEq, Repr

/-- A `std::error_code`: `none` is the cleared state. -/
abbrev ErrorCode := Option Errc

/-- The `symlink_status` type of an entry. -/
def Node.type : Node → FileType
  | .file _ => .regular
  | .dir _ => .directory
  | .symlink _ => .symlink

/-- The entry at a location. -/
def Node.get : Node → List Str → Option Node
  | n, [] => some n
  | .dir es, c :: cs =>
    match es.lookup c with
    | some n => Node.get n cs
    | none => none
  | _, _ :: _ => none

/-- Apply `f` to the entry list of the directory at a location. -/
def Node.modify (f : List (Str × Node) → List (Str × Node)) : Node → List Str → Node
  | .dir es, [] => .dir (f es)
  | .dir es, c :: cs =>
    .dir (es.map (fun e => if e.1 = c then (e.1, Node.modify f e.2 cs) else e))
  | n, _ => n

/-- Put `n` under `name` in the directory at `loc`: an entry of that name is
replaced in place, a new one goes last. -/
def Node.insert (root : Node) (loc : List Str) (name : Str) (n : Node) : Node :=
  root.modify (fun es =>
    if (es.lookup name).isSome then es.map (fun e => if e.1 = name then (e.1, n) else e)
    else es ++ [(name, n)]) loc

/-- Remove the entry `name` of the directory at `loc`. -/
def Node.erase (root : Node) (loc : List Str) (name : Str) : Node :=
  root.modify (fun es => es.filter (fun e => e.1 != name)) loc

/-- The messages the program writes to the error stream, one line each. -/
inductive ErrLine where
  | generic
  | no_such_file
  | bad_mode
  | sys (msg : Str)
deriving DecidableEq, Repr

/-- The characters of a message as written to `std::cerr`. -/
def ErrLine.text : ErrLine → Str
  | .generic => "err\n".toList
  | .no_such_file => "err: no such file or directory\n".toList
  | .bad_mode => "err: bad mode\n".toList
  | .sys msg => "err: ".toList ++ msg ++ ['\n']

/-- The process and its host: the filesystem tree, the location of the working
directory, the `HOME` variable, the characters written to standard output
and the lines written to the error stream. -/
structure World where
  root : Node
  cwd : List Str
  home : Option Str
  out : Str
  err : List ErrLine

/-- How far a walk along path elements got. -/
inductive Walk where
  | done (loc : List Str)
  | link (dir : List Str) (target : Str) (rest : List Str)
  | absent (dir : List Str) (name : Str) (rest : List Str)
  | fail (e : Errc)

/-- Walk the elements `todo` from the directory at `cur`, up to the first
symbolic link that has to be followed.  With `follow = false` a symbolic link
in last position is the result itself (`lstat`).  The empty element a
trailing separator leaves is resolved like `.`: what stands before it must
be a directory. -/
def walkParts (root : Node) (follow : Bool) : List Str → List Str → Walk
  | cur, [] => .done cur
  | cur, c :: rest =>
    match root.get cur with
    | some (.dir es) =>
      if c = ['.'] ∨ c = [] then walkParts root follow cur rest
      else if c = ['.', '.'] then walkParts root follow cur.dropLast rest
      else
        match es.lookup c with
        | none => .absent cur c rest
        | some (.symlink t) =>
          if rest.isEmpty && !follow then .done (cur ++ [c]) else .link cur t rest
        | some _ => walkParts root follow (cur ++ [c]) rest
    | some _ => .fail .ENOTDIR
    | none => .fail .ENOENT

/-- The outcome of resolving a path: the location of the entry, or the
directory in which only the last filename is missing (`slash` tells whether a
separator followed that filename), or an error. -/
inductive Lookup where
  | found (loc : List Str)
  | absent (dir : List Str) (name : Str) (slash : Bool)
  | error (e : Errc)

/-- Path resolution from `cur`, following at most `n` symbolic links. -/
def resolveFrom (root : Node) (follow : Bool) : Nat → List Str → List Str → Lookup
  | n, cur, todo =>
    match walkParts root follow cur todo with
    | .done loc => .found loc
    | .fail e => .error e
    | .absent dir name rest =>
      if rest.isEmpty then .absent dir name false
      else if rest = [[]] then .absent dir name true
      else .error .ENOENT
    | .link dir t rest =>
      match n with
      | 0 => .error .ELOOP
      | m + 1 =>
        if t.isEmpty then .error .ENOENT
        else resolveFrom root follow m (if Path.is_absolute t then [] else dir)
          (Path.elements t ++ rest)

/-- Resolve a path as the kernel does, relative paths from the working
directory, with the Linux limit of 40 symbolic links. -/
def resolve (w : World) (p : Path) (follow : Bool) : Lookup :=
  if p.isEmpty then .error .ENOENT
  else resolveFrom w.root follow 40 (if Path.is_absolute p then [] else w.cwd)
    (Path.elements p)

/-- The file status of a resolution and the error code that goes with it: a
missing entry is `not_found` with the code set, as `fs::status(p, ec)` does. -/
def statusOf (w : World) : Lookup → FileType × ErrorCode
  | .found loc =>
    match w.root.get loc with
    | some n => (n.type, none)
    | none => (.not_found, some .ENOENT)
  | .absent _ _ _ => (.not_found, some .ENOENT)
  | .error e =>
    if e = .ENOENT ∨ e = .ENOTDIR then (.not_found, some e) else (.none, some e)

/-- `fs::symlink_status(p, ec)`: a symbolic link in last position is not
followed. -/
def symlink_status (w : World) (p : Path) : FileType × ErrorCode :=
  statusOf w (resolve w p false)

/-- `fs::status(p, ec)`: symbolic links are followed. -/
def status (w : World) (p : Path) : FileType × ErrorCode := statusOf w (resolve w p true)

/-- `fs::exists(file_status)`. -/
def FileType.exists : FileType → Bool
  | .none => false
  | .not_found => false
  | _ => true

/-- `fs::exists(p, ec)`: a known status clears `ec`. -/
def fs_exists (w : World) (p : Path) : Bool × ErrorCode :=
  let s := status w p
  if s.1 != .none then (s.1 != .not_found, none) else (false, s.2)

/-- `fs::is_directory(p, ec)`. -/
def is_directory (w : World) (p : Path) : Bool × ErrorCode :=
  let s := status w p
  (s.1 == .directory, s.2)

/-- `fs::create_directory(p, ec)`, that is `mkdir(2)`: the parent must resolve
to a directory and the last element must not exist.  On `EEXIST` the library
clears the error when `p` is a directory. -/
def create_directory (w : World) (p : Path) : ErrorCode × World :=
  match resolve w p false with
  | .absent dir name _ => (none, { w with root := w.root.insert dir name (.dir []) })
  | .found _ => if (status w p).1 == .directory then (none, w) else (some .EEXIST, w)
  | .error e => (some e, w)

/-- The first loop of `fs::create_directories`: walk up from `p` (given by its
filenames, last one first, a trailing separator stripped as the library does) and stack the prefixes that do not exist yet, until
a prefix exists.  An existing prefix that is not a directory is an error. -/
def collectMissing (w : World) (abs : Bool) : List Str → List Path → Except Errc (List Path)
  | [], acc => .ok acc
  | f :: rp, acc =>
    let acc1 :=
      if f = ['.'] ∨ f = ['.', '.'] then acc else Path.ofParts abs (f :: rp).reverse :: acc
    let pp := Path.ofParts abs rp.reverse
    if pp.isEmpty then .ok acc1
    else
      let st := status w pp
      if st.1.exists then (if st.1 != .directory then .error .ENOTDIR else .ok acc1)
      else if st.1 == .not_found then collectMissing w abs rp acc1
      else .ok acc1

/-- The second loop of `fs::create_directories`: create the stacked prefixes,
shortest first, stopping at the first error. -/
def createAll : World → List Path → ErrorCode × World
  | w, [] => (none, w)
  | w, q :: qs =>
    match create_directory w q with
    | (some e, w1) => (some e, w1)
    | (none, w1) => createAll w1 qs

/-- `fs::create_directories(p, ec)`. -/
def create_directories (w : World) (p : Path) : ErrorCode × World :=
  if p.isEmpty then (some .EINVAL, w)
  else
    let st := status w p
    if st.1 == .directory then (none, w)
    else if st.1 == .none then (st.2, w)
    else if st.1.exists then (some .ENOTDIR, w)
    else
      match collectMissing w (Path.is_absolute p) (Path.parts p).reverse [] with
      | .error e => (some e, w)
      | .ok missing => createAll w missing

/-- `fs::copy_file(from, to, copy_options::overwrite_existing, ec)`: both paths
are followed through symbolic links; `from` must be a regular file; an
existing `to` must be a regular file other than `from` and gets the content
of `from`; a missing `to` is created in its (existing) directory, unless its
name ends in a separator. -/
def copy_file (w : World) (src dst : Path) : ErrorCode × World :=
  match resolve w src true with
  | .error e => (some e, w)
  | .absent _ _ _ => (some .ENOENT, w)
  | .found lf =>
    match w.root.get lf with
    | some (.file content) =>
      match resolve w dst true with
      | .error e => (some e, w)
      | .absent dir name slash =>
        if slash then (some .EISDIR, w)
        else (none, { w with root := w.root.insert dir name (.file content) })
      | .found lt =>
        match w.root.get lt with
        | some (.file _) =>
          if lt = lf then (some .EEXIST, w)
          else (none, { w with root := w.root.insert lt.dropLast (lt.getLastD []) (.file content) })
        | _ => (some .ENOTSUP, w)
    | _ => (some .ENOTSUP, w)

/-- `fs::remove(p, ec)`: unlink a file or symbolic link (not followed), remove
an empty directory; a missing entry is no error. -/
def fs_remove (w : World) (p : Path) : ErrorCode × World :=
  match resolve w p false with
  | .absent _ _ _ => (none, w)
  | .error e => if e = .ENOENT then (none, w) else (some e, w)
  | .found loc =>
    match w.root.get loc with
    | some (.dir es) =>
      if !es.isEmpty then (some .ENOTEMPTY, w)
      else if loc.isEmpty then (some .EBUSY, w)
      else (none, { w with root := w.root.erase loc.dropLast (loc.getLastD []) })
    | some _ => (none, { w with root := w.root.erase loc.dropLast (loc.getLastD []) })
    | none => (none, w)

/-- `fs::remove_all(p, ec)`: remove the entry (not followed) with everything
below it; a missing entry is no error; the root itself cannot go. -/
def remove_all (w : World) (p : Path) : ErrorCode × World :=
  match resolve w p false with
  | .absent _ _ _ => (none, w)
  | .error e => if e = .ENOENT then (none, w) else (some e, w)
  | .found loc =>
    if loc.isEmpty then (some .EBUSY, { w with root := .dir [] })
    else (none, { w with root := w.root.erase loc.dropLast (loc.getLastD []) })

/-- `fs::create_symlink(target, link, ec)`, that is `symlink(2)`: the link name
must not exist and not end in a separator; the target string is stored as
given. -/
def create_symlink (w : World) (target : Path) (link : Path) : ErrorCode × World :=
  match resolve w link false with
  | .absent dir name slash =>
    if slash then (some .ENOENT, w)
    else (none, { w with root := w.root.insert dir name (.symlink target) })
  | .found _ => (some .EEXIST, w)
  | .error e => (some e, w)

/-- `fs::read_symlink(p, ec)`: the stored target of a symbolic link. -/
def read_symlink (w : World) (p : Path) : Path × ErrorCode :=
  match resolve w p false with
  | .found loc =>
    match w.root.get loc with
    | some (.symlink t) => (t, none)
    | _ => ([], some .EINVAL)
  | .absent _ _ _ => ([], some .ENOENT)
  | .error e => ([], some e)

/-- `fs::canonical(p, ec)`, that is `realpath(3)`: the absolute path of the
entry `p` resolves to, every symbolic link followed. -/
def canonical (w : World) (p : Path) : Path × ErrorCode :=
  match resolve w p true with
  | .found loc => (Path.ofParts true loc, none)
  | .absent _ _ _ => ([], some .ENOENT)
  | .error e => ([], some e)

/-- The leading elements of a path that exist (by `fs::status`, so through
symbolic links), and the elements left over. -/
def existingPrefix (w : World) (abs : Bool) :
    List Str → List Str → Except Errc (List Str × List Str)
  | pre, [] => .ok (pre, [])
  | pre, c :: cs =>
    let st := status w (Path.ofParts abs (pre ++ [c]))
    if st.1.exists then existingPrefix w abs (pre ++ [c]) cs
    else if st.1 == .not_found then .ok (pre, c :: cs)
    else .error (st.2.getD .EINVAL)

/-- `fs::weakly_canonical(p, ec)`: `canonical` of the leading elements that
exist, followed by the remaining elements, normalized. -/
def weakly_canonical (w : World) (p : Path) : Path × ErrorCode :=
  let st := status w p
  if st.1.exists then canonical w p
  else if st.1 == .none then ([], st.2)
  else
    match existingPrefix w (Path.is_absolute p) [] (Path.elements p) with
    | .error e => ([], some e)
    | .ok (pre, rest) =>
      let head : Path × ErrorCode :=
        if pre.isEmpty && !Path.is_absolute p then ([], none)
        else canonical w (Path.ofParts (Path.is_absolute p) pre)
      if head.2.isSome then ([], head.2)
      else (Path.lexically_normal (rest.foldl Path.append head.1), none)

/-- `fs::relative(p, base, ec)`, which the standard defines as
`weakly_canonical(p).lexically_relative(weakly_canonical(base))`: both paths
are resolved through symbolic links before they are compared. -/
def relative (w : World) (p base : Path) : Path × ErrorCode :=
  let r := weakly_canonical w p
  if r.2.isSome then ([], r.2)
  else
    let b := weakly_canonical w base
    if b.2.isSome then ([], b.2)
    else (Path.lexically_relative r.1 b.1, none)

/-- A `fs::directory_entry` as an iterator yields it: the path and the file
type cached from the directory stream (the type of the entry itself, a
symbolic link not followed). -/
structure DirEntry where
  path : Path
  type : FileType
deriving DecidableEq, Repr

mutual
/-- The entries below a directory in the order `recursive_directory_iterator`
visits them: each entry, directly followed by the entries below it when it is a
directory.  Symbolic links are not descended into (the default options). -/
def Node.walk (pre : Path) : Node → List DirEntry
  | .dir es => walkEntries pre es
  | _ => []
/-- The walk over the entry list of one directory whose path is `pre`. -/
def walkEntries (pre : Path) : List (Str × Node) → List DirEntry
  | [] => []
  | e :: rest =>
    ⟨Path.append pre e.1, e.2.type⟩ ::
      (Node.walk (Path.append pre e.1) e.2 ++ walkEntries pre rest)
end

/-- `fs::recursive_directory_iterator(p, ec)`: the sequence of entries it will
yield, and `ec`.  The sequence is read off the tree when the iterator is
made, so it is the one the loop sees as long as the loop body leaves the tree
below `p` alone. -/
def recursive_directory_iterator (w : World) (p : Path) : List DirEntry × ErrorCode :=
  match resolve w p true with
  | .found loc =>
    match w.root.get loc with
    | some (.dir es) => (walkEntries p es, none)
    | _ => ([], some .ENOTDIR)
  | .absent _ _ _ => ([], some .ENOENT)
  | .error e => ([], some e)

/-- `fs::directory_iterator(p, ec)`: the entries of one directory. -/
def directory_iterator (w : World) (p : Path) : List DirEntry × ErrorCode :=
  match resolve w p true with
  | .found loc =>
    match w.root.get loc with
    | some (.dir es) => (es.map (fun e => ⟨Path.append p e.1, e.2.type⟩), none)
    | _ => ([], some .ENOTDIR)
  | .absent _ _ _ => ([], some .ENOENT)
  | .error e => ([], some e)

/-- `directory_entry::is_directory(ec)`: the cached type answers unless the
entry is a symbolic link, in which case `status` follows the link. -/
def DirEntry.is_directory (w : World) (e : DirEntry) : Bool × ErrorCode :=
  if e.type != .none && e.type != .symlink then (e.type == .directory, none)
  else FileExplorer.is_directory w e.path

/-- `directory_entry::is_symlink(ec)` as libstdc++ has it: a cached type
answers and `ec` stays as it was on entry; without a cached type
`symlink_status(ec)` is asked. -/
def DirEntry.is_symlink (w : World) (e : DirEntry) (ec : ErrorCode) : Bool × ErrorCode :=
  if e.type != .none then (e.type == .symlink, ec)
  else
    let s := symlink_status w e.path
    (s.1 == .symlink, s.2)

/-! ## `copy_file_recursive` (lines 40-76) -/

/-- The `for` loop of lines 46-68 with the `return !ec` of line 69: the world,
the current `ec`, and the entries the iterator still has to yield.  `islnk`
is `it->is_symlink(ec)` of line 53, evaluated only when line 50 fails, on the
`ec` that `it->is_directory(ec)` left. -/
def copy_loop (src dst : Path) : World → ErrorCode → List DirEntry → Bool × World
  | w, ec, [] => (ec.isNone, w)
  | w, ec, e :: es =>
    if ec.isSome then (false, w)
    else
      let rel := relative w e.path src
      if rel.2.isSome then (false, w)
      else
        let out := Path.append dst rel.1
        let isdir := e.is_directory w
        let islnk := e.is_symlink w isdir.2
        if isdir.1 then
          let r := create_directories w out
          if r.1.isSome then (false, r.2) else copy_loop src dst r.2 r.1 es
        else if islnk.1 then
          let target := read_symlink w e.path
          if target.2.isSome then (false, w)
          else
            let r1 := create_directories w (Path.parent_path out)
            if r1.1.isSome then (false, r1.2)
            else
              let r2 := fs_remove r1.2 out
              let r3 := create_symlink r2.2 target.1 out
              if r3.1.isSome then (false, r3.2) else copy_loop src dst r3.2 islnk.2 es
        else
          let r1 := create_directories w (Path.parent_path out)
          if r1.1.isSome then (false, r1.2)
          else
            let r2 := copy_file r1.2 e.path out
            if r2.1.isSome then (false, r2.2) else copy_loop src dst r2.2 r2.1 es

/-- `copy_file_recursive(src, dst)`: the returned flag and the world after. -/
def copy_file_recursive (w : World) (src dst : Path) : Bool × World :=
  if !(fs_exists w src).1 then (false, w)
  else if (is_directory w src).1 then
    let r := create_directories w dst
    if r.1.isSome then (false, r.2)
    else
      let it := recursive_directory_iterator r.2 src
      copy_loop src dst r.2 it.2 it.1
  else
    let r := create_directories w (Path.parent_path dst)
    if r.1.isSome then (false, r.2)
    else
      let c := copy_file r.2 src dst
      (c.1.isNone, c.2)

/-! ## `ls`, `search_name`, `cwd` -/

/-- Write to standard output. -/
def World.print (w : World) (s : Str) : World := { w with out := w.out ++ s }

/-- Write to the error stream. -/
def World.eprint (w : World) (l : ErrLine) : World := { w with err := w.err ++ [l] }

/-- The content of the error stream. -/
def World.errText (w : World) : Str := (w.err.map ErrLine.text).flatten

/-- `cwd()` (lines 15-19): `getcwd` fails once the working directory is gone. -/
def cwd (w : World) : Str :=
  match w.root.get w.cwd with
  | some (.dir _) => Path.ofParts true w.cwd
  | _ => "<unknown>".toList

/-- `ls(p)` (lines 78-89). -/
def ls (w : World) (p : Path) : World :=
  if !(fs_exists w p).1 then w.eprint .no_such_file
  else if (is_directory w p).1 then
    let it := directory_iterator w p
    let w1 := it.1.foldl (fun w e => w.print (Path.filename e.path ++ ['\n'])) w
    if it.2.isSome then w1.eprint .generic else w1
  else w.print (Path.filename p ++ ['\n'])

/-- The range-`for` of `search_name` (lines 94-99). -/
def search_loop (p : Path) (pat : Str) : World → ErrorCode → List DirEntry → World
  | w, _, [] => w
  | w, ec, e :: es =>
    let r : World × ErrorCode :=
      if (find (Path.filename e.path) pat).isSome then
        let rel := relative w e.path p
        (w.print (rel.1 ++ ['\n']), rel.2)
      else (w, ec)
    if r.2.isSome then r.1.eprint .generic else search_loop p pat r.1 r.2 es

/-- `search_name(p, pat)` (lines 91-100). -/
def search_name (w : World) (p : Path) (pat : Str) : World :=
  if !(fs_exists w p).1 then w.eprint .generic
  else
    let it := recursive_directory_iterator w p
    search_loop p pat w it.2 it.1

/-! ## The dispatcher (`main`, lines 114-176) -/

/-- `std::error_code::message()` / `strerror(errno)` for the codes of the tree. -/
def Errc.message : Errc → Str
  | .ENOENT => "No such file or directory".toList
  | .ENOTDIR => "Not a directory".toList
  | .ELOOP => "Too many levels of symbolic links".toList
  | .EEXIST => "File exists".toList
  | .EISDIR => "Is a directory".toList
  | .ENOTEMPTY => "Directory not empty".toList
  | .EINVAL => "Invalid argument".toList
  | .EBUSY => "Device or resource busy".toList
  | .ENOTSUP => "Operation not supported".toList

/-- The system calls whose effect on the tree is left open: each gets the
tree and the working directory and gives the new tree, with the text of the
system error when it fails.  `chmod` is `::chmod(path.c_str(), mode)`,
`rename` is `fs::rename(from, to, ec)`, `open_append` is opening a
`std::ofstream` in append mode. -/
structure Host where
  rename : Node → List Str → Str → Str → Option Str × Node
  open_append : Node → List Str → Str → Option Str × Node
  chmod : Node → List Str → Str → Nat → Option Str × Node

/-- Whether the `while (true)` loop goes on (`again`) or is left (`stop`). -/
inductive Flow where
  | again
  | stop
deriving DecidableEq, Repr

/-- `fs::current_path(p, ec)`, that is `chdir(2)`. -/
def set_current_path (w : World) (p : Path) : ErrorCode × World :=
  match resolve w p true with
  | .found loc =>
    match w.root.get loc with
    | some (.dir _) => (none, { w with cwd := loc })
    | _ => (some .ENOTDIR, w)
  | .absent _ _ _ => (some .ENOENT, w)
  | .error e => (some e, w)

/-- Report a failed library call: `"err: " << ec.message() << "\n"`. -/
def World.report (w : World) : ErrorCode → World
  | none => w
  | some e => w.eprint (.sys e.message)

/-- Report a failed system call by the text of `errno`. -/
def World.reportMsg (w : World) : Option Str → World
  | none => w
  | some msg => w.eprint (.sys msg)

/-- The text of the `help` command (line 170). -/
def helpText : Str :=
  ("ls [path]\ncd [path]\npwd\ncp <src> <dst>\nmv <src> <dst>\nrm <path>\nmkdir <path>\n" ++
    "touch <file>\nsearch <pattern>\nchmod <octal> <path>\nexit\n").toList

/-- One pass through the `if`/`else if` chain of `main` (lines 124-173) for the
token vector `a`; an empty vector is the `continue` of line 123. -/
def dispatch (h : Host) (w : World) (a : List Str) : Flow × World :=
  match a with
  | [] => (.again, w)
  | cmd :: _ =>
    if cmd = "exit".toList then (.stop, w)
    else if cmd = "pwd".toList then (.again, w.print (cwd w ++ ['\n']))
    else if cmd = "ls".toList then
      (.again, ls w (if a.length > 1 then a.getD 1 [] else cwd w))
    else if cmd = "cd".toList then
      let p : Path := if a.length > 1 then a.getD 1 [] else w.home.getD ['/']
      let r := set_current_path w p
      (.again, r.2.report r.1)
    else if cmd = "cp".toList ∧ a.length ≥ 3 then
      let r := copy_file_recursive w (a.getD 1 []) (a.getD 2 [])
      (.again, if !r.1 then r.2.eprint .generic else r.2)
    else if cmd = "mv".toList ∧ a.length ≥ 3 then
      let r := h.rename w.root w.cwd (a.getD 1 []) (a.getD 2 [])
      (.again, World.reportMsg { w with root := r.2 } r.1)
    else if cmd = "rm".toList ∧ a.length ≥ 2 then
      let p : Path := a.getD 1 []
      let r := if (is_directory w p).1 then remove_all w p else fs_remove w p
      (.again, r.2.report r.1)
    else if cmd = "mkdir".toList ∧ a.length ≥ 2 then
      let r := create_directories w (a.getD 1 [])
      (.again, r.2.report r.1)
    else if cmd = "touch".toList ∧ a.length ≥ 2 then
      let r := h.open_append w.root w.cwd (a.getD 1 [])
      (.again, World.reportMsg { w with root := r.2 } r.1)
    else if cmd = "search".toList ∧ a.length ≥ 2 then
      (.again, search_name w (cwd w) (a.getD 1 []))
    else if cmd = "chmod".toList ∧ a.length ≥ 3 then
      let m := parse_mode (a.getD 1 [])
      if m = 0 then (.again, w.eprint .bad_mode)
      else
        let r := h.chmod w.root w.cwd (a.getD 2 []) m
        (.again, World.reportMsg { w with root := r.2 } r.1)
    else if cmd = "help".toList then (.again, w.print helpText)
    else (.again, w.eprint .generic)

/-- The loop of `main` over the lines `std::getline` delivers: prompt, read,
tokenize, dispatch; the end of the input ends the loop. -/
def main (h : Host) : World → List Str → World
  | w, [] => w.print (cwd w ++ " > ".toList)
  | w, line :: lines =>
    let w1 := w.print (cwd w ++ " > ".toList)
    let r := dispatch h w1 (split_quoted line)
    match r.1 with
    | .stop => r.2
    | .again => main h r.2 lines

/-- The twelve command names of the dispatcher. -/
def commandNames : List Str :=
  ["exit", "pwd", "ls", "cd", "cp", "mv", "rm", "mkdir", "touch", "search", "chmod",
    "help"].map String.toList

/-- The tokens of a line as the specification describes them for a line
without quotes and escapes: the pieces between white space characters, the
empty pieces discarded. -/
def whitespaceRuns (line : Str) : List Str :=
  (line.splitOnP isspace).filter (fun t => !t.isEmpty)

/-- A character that is no backslash, no quote and no white space. -/
def isPlain (c : Char) : Bool :=
  c != backslash && c != squote && c != dquote && !isspace c

/-! ## Sample hosts and trees -/

/-- A host on which `rename`, opening for append and `chmod` succeed and leave
the tree as it is. -/
def quietHost : Host :=
  ⟨fun r _ _ _ => (none, r), fun r _ _ => (none, r), fun r _ _ _ => (none, r)⟩

/-- A host whose `chmod` refuses every call and names the path and the mode (in
octal) it was called with in its error text; `rename` and opening for append
succeed and leave the tree as it is. -/
def traceHost : Host :=
  ⟨fun r _ _ _ => (none, r), fun r _ _ => (none, r),
    fun r _ path m => (some (path ++ [' '] ++ Nat.toDigits 8 m), r)⟩

/-- A host whose `chmod` succeeds and empties the tree. -/
def wipeHost : Host :=
  ⟨fun r _ _ _ => (none, r), fun r _ _ => (none, r), fun _ _ _ _ => (none, .dir [])⟩

/-- The tree `/s/d/` (an empty directory) and `/s/l -> d`, working directory `/`. -/
def copyWorld : World :=
  { root := .dir [("s".toList, .dir [("d".toList, .dir []), ("l".toList, .symlink "d".toList)])],
    cwd := [], home := none, out := [], err := [] }

/-- The tree `/w/notes` (a regular file) and `/w/xyz -> notes`, working
directory `/w`. -/
def searchWorld : World :=
  { root := .dir [("w".toList,
      .dir [("notes".toList, .file "hi".toList), ("xyz".toList, .symlink "notes".toList)])],
    cwd := ["w".toList], home := none, out := [], err := [] }

/-- The tree `/s/g` (a regular file) and `/s/lf -> g`, working directory `/`. -/
def linkWorld : World :=
  { root := .dir [("s".toList,
      .dir [("g".toList, .file "x".toList), ("lf".toList, .symlink "g".toList)])],
    cwd := [], home := none, out := [], err := [] }

/-- The tree `/w/a/b/a_xyz_b.txt` with an unrelated `/w/a/readme`, working
directory `/w`. -/
def deepWorld : World :=
  { root := .dir [("w".toList, .dir [("a".toList,
      .dir [("b".toList, .dir [("a_xyz_b.txt".toList, .file [])]),
        ("readme".toList, .file [])])])],
    cwd := ["w".toList], home := none, out := [], err := [] }

/-! ## The tokenizer: proofs -/

theorem fold_plain (u : Str) (hu : ∀ c ∈ u, isPlain c = true) (v : List Str) (cur : Str)
    (s d : Bool) :
    u.foldl split_step ⟨v, cur, s, d, false⟩ = ⟨v, cur ++ u, s, d, false⟩ := by
  induction u generalizing cur with
  | nil => simp
  | cons c u ih =>
    have hc := hu c (List.mem_cons_self _ _)
    simp only [isPlain, Bool.and_eq_true, bne_iff_ne, ne_eq, Bool.not_eq_true_eq_eq_false,
      Bool.not_eq_eq_eq_not, Bool.not_true] at hc
    obtain ⟨⟨⟨h1, h2⟩, h3⟩, h4⟩ := hc
    have hstep : split_step ⟨v, cur, s, d, false⟩ c = ⟨v, cur ++ [c], s, d, false⟩ := by
      simp [split_step, h1, h2, h3, h4]
    rw [List.foldl_cons, hstep, ih (fun x hx => hu x (List.mem_cons_of_mem _ hx))]
    simp

theorem fold_in_double (u : Str) (hu : ∀ c ∈ u, c ≠ backslash ∧ c ≠ dquote) (v : List Str)
    (cur : Str) :
    u.foldl split_step ⟨v, cur, false, true, false⟩ = ⟨v, cur ++ u, false, true, false⟩ := by
  induction u generalizing cur with
  | nil => simp
  | cons c u ih =>
    obtain ⟨h1, h2⟩ := hu c (List.mem_cons_self _ _)
    have hstep : split_step ⟨v, cur, false, true, false⟩ c = ⟨v, cur ++ [c], false, true, false⟩ := by
      simp [split_step, h1, h2]
    rw [List.foldl_cons, hstep, ih (fun x hx => hu x (List.mem_cons_of_mem _ hx))]
    simp

theorem fold_in_single (u : Str) (hu : ∀ c ∈ u, c ≠ backslash ∧ c ≠ squote) (v : List Str)
    (cur : Str) :
    u.foldl split_step ⟨v, cur, true, false, false⟩ = ⟨v, cur ++ u, true, false, false⟩ := by
  induction u generalizing cur with
  | nil => simp
  | cons c u ih =>
    obtain ⟨h1, h2⟩ := hu c (List.mem_cons_self _ _)
    have hstep : split_step ⟨v, cur, true, false, false⟩ c = ⟨v, cur ++ [c], true, false, false⟩ := by
      simp [split_step, h1, h2]
    rw [List.foldl_cons, hstep, ih (fun x hx => hu x (List.mem_cons_of_mem _ hx))]
    simp

/-- Every step of the loop keeps the tokens already in `v` non-empty. -/
theorem split_step_nonempty (st : SplitState) (c : Char) (h : ∀ t ∈ st.v, t ≠ []) :
    ∀ t ∈ (split_step st c).v, t ≠ [] := by
  unfold split_step
  split_ifs with h1 h2 h3 h4 h5 h6 <;> try exact h
  intro t ht
  simp only [List.mem_append, List.mem_singleton] at ht
  rcases ht with ht | ht
  · exact h t ht
  · subst ht
    intro h0
    simp [h0] at h6

theorem fold_nonempty (s : Str) (st : SplitState) (h : ∀ t ∈ st.v, t ≠ []) :
    ∀ t ∈ (s.foldl split_step st).v, t ≠ [] := by
  induction s generalizing st with
  | nil => simpa using h
  | cons c s ih => exact ih _ (split_step_nonempty st c h)

/-- The loop on a line without quotes and escapes, started outside quotes with
an accumulator free of white space: it ends with the tokens already found
followed by the white-space-separated pieces of accumulator plus line. -/
theorem fold_unquoted (line : Str)
    (hl : ∀ c ∈ line, c ≠ squote ∧ c ≠ dquote ∧ c ≠ backslash) (v : List Str) (cur : Str)
    (hcur : ∀ c ∈ cur, ¬ isspace c = true) :
    split_finish (line.foldl split_step ⟨v, cur, false, false, false⟩) =
      v ++ whitespaceRuns (cur ++ line) := by
  induction line generalizing v cur with
  | nil =>
    simp only [List.foldl_nil, List.append_nil, split_finish, whitespaceRuns]
    rw [List.splitOnP_eq_single isspace _ hcur]
    cases cur <;> simp
  | cons c line ih =>
    obtain ⟨h1, h2, h3⟩ := hl c (List.mem_cons_self _ _)
    have hl1 : ∀ x ∈ line, x ≠ squote ∧ x ≠ dquote ∧ x ≠ backslash :=
      fun x hx => hl x (List.mem_cons_of_mem _ hx)
    rw [List.foldl_cons]
    by_cases hsp : isspace c = true
    · have hsplit : whitespaceRuns (cur ++ c :: line) =
          (if cur.isEmpty then [] else [cur]) ++ whitespaceRuns line := by
        unfold whitespaceRuns
        rw [List.splitOnP_first isspace _ hcur c hsp]
        cases cur <;> simp
      cases cur with
      | nil =>
        have hstep : split_step ⟨v, [], false, false, false⟩ c = ⟨v, [], false, false, false⟩ := by
          simp [split_step, h1, h2, h3, hsp]
        rw [hstep, ih hl1 v [] (by simp), hsplit]
        simp
      | cons a cur =>
        have hstep : split_step ⟨v, a :: cur, false, false, false⟩ c =
            ⟨v ++ [a :: cur], [], false, false, false⟩ := by
          simp [split_step, h1, h2, h3, hsp]
        rw [hstep, ih hl1 _ [] (by simp), hsplit]
        simp
    · have hstep : split_step ⟨v, cur, false, false, false⟩ c =
          ⟨v, cur ++ [c], false, false, false⟩ := by
        simp [split_step, h1, h2, h3, hsp]
      rw [hstep, ih hl1 v (cur ++ [c])]
      · simp
      · intro x hx
        simp only [List.mem_append, List.mem_singleton] at hx
        rcases hx with hx | hx
        · exact hcur x hx
        · subst hx; exact hsp

/-- A line of white space only has no white-space-separated piece. -/
theorem whitespaceRuns_of_isspace (line : Str) (h : ∀ c ∈ line, isspace c = true) :
    whitespaceRuns line = [] := by
  induction line with
  | nil => simp [whitespaceRuns]
  | cons c line ih =>
    have hc := h c (List.mem_cons_self _ _)
    have ih1 := ih (fun x hx => h x (List.mem_cons_of_mem _ hx))
    unfold whitespaceRuns at ih1 ⊢
    rw [List.splitOnP_cons, if_pos hc]
    simpa using ih1

/-- Claim C3: for non-empty `w1` without backslash and double quote and non-empty
`w2` without backslash and single quote, the line `cp "w1" 'w2'` splits into
exactly the three tokens `cp`, `w1`, `w2`. -/
theorem split_quoted_cp_quoted (w1 w2 : Str) (h1 : w1 ≠ [])
    (hw1 : ∀ c ∈ w1, c ≠ backslash ∧ c ≠ dquote) (h2 : w2 ≠ [])
    (hw2 : ∀ c ∈ w2, c ≠ backslash ∧ c ≠ squote) :
    split_quoted ("cp ".toList ++ [dquote] ++ w1 ++ [dquote] ++ [' '] ++ [squote] ++ w2 ++
      [squote]) = ["cp".toList, w1, w2] := by
  unfold split_quoted split_init
  simp only [List.foldl_append]
  have e1 : "cp ".toList.foldl split_step ⟨[], [], false, false, false⟩ =
      ⟨["cp".toList], [], false, false, false⟩ := by decide
  have e2 : [dquote].foldl split_step ⟨["cp".toList], [], false, false, false⟩ =
      ⟨["cp".toList], [], false, true, false⟩ := by decide
  rw [e1, e2, fold_in_double w1 hw1]
  have e3 : ([dquote] : Str).foldl split_step ⟨["cp".toList], [] ++ w1, false, true, false⟩ =
      ⟨["cp".toList], w1, false, false, false⟩ := by
    simp [split_step, dquote, backslash, squote]
  have hne1 : w1.isEmpty = false := by cases w1 <;> simp_all
  have e4 : ([' '] : Str).foldl split_step ⟨["cp".toList], w1, false, false, false⟩ =
      ⟨["cp".toList, w1], [], false, false, false⟩ := by
    simp [split_step, dquote, backslash, squote, isspace, hne1]
  have e5 : ([squote] : Str).foldl split_step ⟨["cp".toList, w1], [], false, false, false⟩ =
      ⟨["cp".toList, w1], [], true, false, false⟩ := by
    simp [split_step, dquote, backslash, squote]
  rw [e3, e4, e5, fold_in_single w2 hw2]
  have e6 : ([squote] : Str).foldl split_step ⟨["cp".toList, w1], [] ++ w2, true, false, false⟩ =
      ⟨["cp".toList, w1], w2, false, false, false⟩ := by
    simp [split_step, dquote, backslash, squote]
  have hne2 : w2.isEmpty = false := by cases w2 <;> simp_all
  rw [e6]
  simp [split_finish, hne2]

/-- Claim C3, at `w1 = "a b"` and `w2 = "c d"`. -/
theorem split_quoted_cp_quoted_witness :
    split_quoted ("cp ".toList ++ [dquote] ++ "a b".toList ++ [dquote] ++ [' '] ++ [squote] ++
      "c d".toList ++ [squote]) = ["cp".toList, "a b".toList, "c d".toList] :=
  split_quoted_cp_quoted "a b".toList "c d".toList (by decide) (by decide) (by decide)
    (by decide)

/-- Claim C4: for every character `c` and all `u`, `v` without white space, quote
and backslash, the line `u\cv` splits into the single token `ucv`: the
backslash is consumed and `c` is taken literally. -/
theorem split_quoted_escape (c : Char) (u v : Str) (hu : ∀ x ∈ u, isPlain x = true)
    (hv : ∀ x ∈ v, isPlain x = true) :
    split_quoted (u ++ [backslash] ++ [c] ++ v) = [u ++ [c] ++ v] := by
  unfold split_quoted split_init
  simp only [List.foldl_append]
  rw [fold_plain u hu]
  have e1 : ([backslash] : Str).foldl split_step ⟨[], [] ++ u, false, false, false⟩ =
      ⟨[], u, false, false, true⟩ := by
    simp [split_step]
  have e2 : ([c] : Str).foldl split_step ⟨[], u, false, false, true⟩ =
      ⟨[], u ++ [c], false, false, false⟩ := by
    simp [split_step]
  rw [e1, e2, fold_plain v hv]
  simp [split_finish]

/-- Claim C4, at the line `a\ b`, which is the one token `a b`. -/
theorem split_quoted_escape_witness :
    split_quoted ("a".toList ++ [backslash] ++ [' '] ++ "b".toList) = ["a b".toList] :=
  split_quoted_escape ' ' "a".toList "b".toList (by decide) (by decide)

/-- Claim C5: every token `split_quoted` returns is a non-empty string, whatever the
line (unterminated quotes, trailing backslash and empty quotes included). -/
theorem split_quoted_tokens_nonempty (s : Str) : ∀ t ∈ split_quoted s, t ≠ [] := by
  intro t ht
  unfold split_quoted split_finish at ht
  have hv := fold_nonempty s split_init (by simp [split_init])
  split_ifs at ht with h
  · simp only [List.mem_append, List.mem_singleton] at ht
    rcases ht with ht | ht
    · exact hv t ht
    · subst ht
      intro h0
      simp [h0] at h
  · exact hv t ht

/-- Claim C5, at the line `a ""` with its one token `a`. -/
theorem split_quoted_tokens_nonempty_witness :
    "a".toList ∈ split_quoted ("a ".toList ++ [dquote, dquote]) ∧ "a".toList ≠ [] :=
  ⟨by decide, split_quoted_tokens_nonempty ("a ".toList ++ [dquote, dquote]) "a".toList
    (by decide)⟩

/-- Claim C6: on a line without quote and backslash `split_quoted` returns the pieces
between white space characters, empty pieces discarded, in order; a line of
white space only has no token. -/
theorem split_quoted_unquoted (line : Str)
    (hl : ∀ c ∈ line, c ≠ squote ∧ c ≠ dquote ∧ c ≠ backslash) :
    split_quoted line = whitespaceRuns line ∧
      ((∀ c ∈ line, isspace c = true) → split_quoted line = []) := by
  have h := fold_unquoted line hl [] [] (by simp)
  simp only [List.nil_append] at h
  have h1 : split_quoted line = whitespaceRuns line := h
  exact ⟨h1, fun hws => h1.trans (whitespaceRuns_of_isspace line hws)⟩

/-- Claim C6, at the line ` ls  -l x `. -/
theorem split_quoted_unquoted_witness :
    whitespaceRuns " ls  -l x ".toList = ["ls".toList, "-l".toList, "x".toList] ∧
      split_quoted " ls  -l x ".toList = whitespaceRuns " ls  -l x ".toList ∧
      ((∀ c ∈ " ls  -l x ".toList, isspace c = true) → split_quoted " ls  -l x ".toList = []) :=
  ⟨by decide, split_quoted_unquoted " ls  -l x ".toList (by decide)⟩

/-! ## Mode parsing: proofs -/

theorem isOctal_toNat (c : Char) (h : isOctal c = true) : 48 ≤ c.toNat ∧ c.toNat ≤ 55 := by
  simp only [isOctal, Bool.and_eq_true, decide_eq_true_eq] at h
  obtain ⟨h1, h2⟩ := h
  rw [Char.le_def] at h1 h2
  exact ⟨h1, h2⟩

theorem isOctal_mem (c : Char) (h : isOctal c = true) :
    c ∈ ['0', '1', '2', '3', '4', '5', '6', '7'] := by
  obtain ⟨h1, h2⟩ := isOctal_toNat c h
  have hc : c = Char.ofNat c.toNat := (Char.ofNat_toNat c).symm
  interval_cases hn : c.toNat <;> (rw [hc]; decide)

/-- An octal digit is no NUL, no white space and no sign. -/
theorem isOctal_facts (c : Char) (h : isOctal c = true) :
    c ≠ nul ∧ isspace c = false ∧ c ≠ '-' ∧ c ≠ '+' := by
  have hm := isOctal_mem c h
  simp only [List.mem_cons, List.mem_singleton, List.not_mem_nil, or_false] at hm
  rcases hm with rfl | rfl | rfl | rfl | rfl | rfl | rfl | rfl <;> decide

theorem digitVal_lt (c : Char) (h : isOctal c = true) : digitVal c < 8 := by
  obtain ⟨h1, h2⟩ := isOctal_toNat c h
  have : '0'.toNat = 48 := by decide
  unfold digitVal
  omega

/-- The digit loop of `strtol` computes the base-8 value. -/
theorem foldl_octal (ds : Str) (acc : Nat) :
    ds.foldl (fun acc c => acc * 8 + digitVal c) acc = acc * 8 ^ ds.length + octalValue ds := by
  induction ds generalizing acc with
  | nil => simp [octalValue]
  | cons c ds ih =>
    rw [List.foldl_cons, ih]
    have h0 := ih 0
    simp only [octalValue, List.reverse_cons, List.map_append, List.map_cons, List.map_nil,
      Nat.ofDigits_append, Nat.ofDigits_singleton, List.length_map, List.length_reverse,
      List.length_cons]
    ring

theorem octalValue_lt (ds : Str) (h : ∀ c ∈ ds, isOctal c = true) :
    octalValue ds < 8 ^ ds.length := by
  have := Nat.ofDigits_lt_base_pow_length (b := 8) (l := ds.reverse.map digitVal) (by norm_num)
    (by
      intro x hx
      simp only [List.mem_map, List.mem_reverse] at hx
      obtain ⟨c, hc, rfl⟩ := hx
      exact digitVal_lt c (h c hc))
  simpa [octalValue] using this

/-- `strtol` on a non-empty string of octal digits only. -/
theorem strtol8_digits (ds : Str) (hne : ds ≠ []) (h : ∀ c ∈ ds, isOctal c = true) :
    strtol8 ds = (min (octalValue ds : Int) LONG_MAX, []) := by
  cases ds with
  | nil => exact absurd rfl hne
  | cons a t =>
    obtain ⟨_, ha2, ha3, ha4⟩ := isOctal_facts a (h a (List.mem_cons_self _ _))
    have htake : (a :: t).takeWhile isOctal = a :: t := by
      rw [List.takeWhile_eq_self_iff]; exact h
    have hdrop : (a :: t).dropWhile isOctal = [] := by
      rw [List.dropWhile_eq_nil_iff]; exact h
    have hws : (a :: t).dropWhile isspace = a :: t := by
      rw [List.dropWhile_cons_of_neg (by simp [ha2])]
    unfold strtol8
    simp only [hws, beq_iff_eq, ha3, ha4, if_false, htake, hdrop, List.isEmpty_cons,
      Bool.false_eq_true]
    rw [foldl_octal]
    simp

/-- Claim C1: on a string of 1 to 4 octal digits `parse_mode` returns its base-8
value. -/
theorem parse_mode_wellformed (s : Str) (h : WellFormedOctal s) :
    parse_mode s = octalValue s := by
  obtain ⟨h1, h4, ho⟩ := h
  have hne : s ≠ [] := by
    intro h0; simp [h0] at h1
  have hc : c_str s = s := by
    unfold c_str
    rw [List.takeWhile_eq_self_iff]
    intro c hc
    simpa using (isOctal_facts c (ho c hc)).1
  have hlt := octalValue_lt s ho
  have hpow : 8 ^ s.length ≤ 8 ^ 4 := Nat.pow_le_pow_right (by norm_num) h4
  have hv : octalValue s ≤ 4095 := by omega
  have hmin : min (octalValue s : Int) LONG_MAX = octalValue s := by
    apply min_eq_left
    unfold LONG_MAX
    omega
  unfold parse_mode
  rw [hc, strtol8_digits s hne ho, hmin]
  have he : s.isEmpty = false := by cases s <;> simp_all
  have hl : ¬ s.length > 4 := by omega
  have h5 : ¬ ((octalValue s : Int) > 4095) := by omega
  simp only [he, hl, decide_False, Bool.or_self, Bool.false_eq_true, if_false, List.isEmpty_nil,
    Bool.not_true, Int.natCast_nonneg, not_lt.mpr, h5, Int.toNat_ofNat]
  omega

/-- Claim C1, at `"755"`, whose value is 493. -/
theorem parse_mode_wellformed_witness :
    WellFormedOctal "755".toList ∧ parse_mode "755".toList = octalValue "755".toList ∧
      octalValue "755".toList = 493 ∧ parse_mode "0644".toList = 420 :=
  ⟨by decide, parse_mode_wellformed "755".toList (by decide), by decide, by decide⟩


/-- What `strtol` accepted when it consumed the whole text and returned a
positive value: white space, an optional `+`, octal digits. -/
theorem strtol8_accept (t : Str) (v : Int) (hv : strtol8 t = (v, [])) (hpos : 0 < v) :
    ∃ ws sign ds, t = ws ++ sign ++ ds ∧ (∀ c ∈ ws, isspace c = true) ∧
      (sign = [] ∨ sign = ['+']) ∧ ds ≠ [] ∧ (∀ c ∈ ds, isOctal c = true) ∧
      v = min (octalValue ds : Int) LONG_MAX := by
  have hsplit : t = t.takeWhile isspace ++ t.dropWhile isspace :=
    (List.takeWhile_append_dropWhile isspace t).symm
  have hws : ∀ c ∈ t.takeWhile isspace, isspace c = true :=
    fun c hc => List.mem_takeWhile_imp hc
  have hoct : ∀ r : Str, ∀ c ∈ r.takeWhile isOctal, isOctal c = true :=
    fun r c hc => List.mem_takeWhile_imp hc
  have hrest : ∀ r : Str, r.dropWhile isOctal = [] → r.takeWhile isOctal = r := by
    intro r hr
    have := List.takeWhile_append_dropWhile isOctal r
    rw [hr, List.append_nil] at this
    exact this
  unfold strtol8 at hv
  cases hs1 : t.dropWhile isspace with
  | nil =>
    simp [hs1] at hv
    omega
  | cons c r =>
    simp only [hs1] at hv
    by_cases hm : c = '-'
    · simp only [hm, beq_self_eq_true, if_true] at hv
      split_ifs at hv with he
      · simp at hv; omega
      · have h1 := (Prod.mk.inj hv).1
        have : max (-((List.foldl (fun acc c => acc * 8 + digitVal c) 0
            (List.takeWhile isOctal r) : Nat) : Int)) LONG_MIN ≤ 0 := by
          apply max_le
          · omega
          · unfold LONG_MIN; norm_num
        omega
    · by_cases hp : c = '+'
      · have hmp : ('+' == '-') = false := by decide
        simp only [hp, hmp, beq_self_eq_true, if_true, Bool.false_eq_true, if_false] at hv
        split_ifs at hv with he
        · simp at hv; omega
        · obtain ⟨h1, h2⟩ := Prod.mk.inj hv
          have hds := hrest r h2
          refine ⟨t.takeWhile isspace, ['+'], r, ?_, hws, Or.inr rfl, ?_, ?_, ?_⟩
          · rw [List.append_assoc, List.singleton_append, ← hp, ← hs1]; exact hsplit
          · intro h0; simp [h0] at he
          · rw [← hds]; exact hoct r
          · rw [hds, foldl_octal] at h1
            simpa using h1.symm
      · have h1 : (c == '-') = false := by simpa using hm
        have h2 : (c == '+') = false := by simpa using hp
        simp only [h1, h2, Bool.false_eq_true, if_false] at hv
        split_ifs at hv with he
        · simp at hv; omega
        · obtain ⟨h3, h4⟩ := Prod.mk.inj hv
          have hds := hrest (c :: r) h4
          refine ⟨t.takeWhile isspace, [], c :: r, ?_, hws, Or.inl rfl, by simp, ?_, ?_⟩
          · rw [List.append_nil, ← hs1]; exact hsplit
          · rw [← hds]; exact hoct (c :: r)
          · rw [hds, foldl_octal] at h3
            simpa using h3.symm

/-- Claim C2, as the source has it: a nonzero result means 1 to 4 characters which,
up to the first NUL, are optional white space, an optional `+`, and then one
or more octal digits; the result is the base-8 value of those digits. -/
theorem parse_mode_nonzero_shape (s : Str) (h : parse_mode s ≠ 0) :
    1 ≤ s.length ∧ s.length ≤ 4 ∧
      ∃ ws sign ds, c_str s = ws ++ sign ++ ds ∧ (∀ c ∈ ws, isspace c = true) ∧
        (sign = [] ∨ sign = ['+']) ∧ ds ≠ [] ∧ (∀ c ∈ ds, isOctal c = true) ∧
        parse_mode s = octalValue ds := by
  have hlen : ¬ (s.isEmpty || decide (s.length > 4)) = true := by
    intro hc
    simp [parse_mode, hc] at h
  have hbad : ¬ (!(strtol8 (c_str s)).2.isEmpty || decide ((strtol8 (c_str s)).1 < 0) ||
      decide ((strtol8 (c_str s)).1 > 4095)) = true := by
    intro hc
    simp [parse_mode, hlen, hc] at h
  have hval : parse_mode s = (strtol8 (c_str s)).1.toNat % 2 ^ 32 := by
    simp [parse_mode, hlen, hbad]
  simp only [Bool.or_eq_true, decide_eq_true_eq, not_or, Bool.not_eq_true,
    List.isEmpty_eq_true, Bool.not_eq_true_eq_eq_false, Bool.not_eq_eq_eq_not, Bool.not_false,
    not_lt, List.isEmpty_eq_false, not_not] at hlen hbad
  obtain ⟨⟨hend0, hge⟩, hle⟩ := hbad
  have hend : (strtol8 (c_str s)).2 = [] := by simpa using hend0
  have hpos : 0 < (strtol8 (c_str s)).1 := by
    rcases hge.lt_or_eq with hlt | heq
    · exact hlt
    · rw [hval, ← heq] at h
      simp at h
  obtain ⟨ws, sign, ds, hshape, hws, hsign, hds, hoct, hv⟩ :=
    strtol8_accept (c_str s) (strtol8 (c_str s)).1 (Prod.ext rfl hend) hpos
  refine ⟨?_, ?_, ws, sign, ds, hshape, hws, hsign, hds, hoct, ?_⟩
  · rcases hs : s with _ | ⟨a, t⟩
    · simp [hs] at hlen
    · simp
  · exact hlen.2
  · rw [hval, hv]
    have hmin : min (octalValue ds : Int) LONG_MAX ≤ 4095 := hv ▸ hle
    have hm : min (octalValue ds : Int) LONG_MAX = octalValue ds := by
      rcases min_choice (octalValue ds : Int) LONG_MAX with hc | hc
      · exact hc
      · rw [hc] at hmin
        unfold LONG_MAX at hmin
        norm_num at hmin
    rw [hm] at hmin ⊢
    simp only [Int.toNat_ofNat]
    omega

/-- Claim C2 fails as stated: `"+7"` has a sign, yet `parse_mode` returns 7. -/
theorem parse_mode_accepts_sign :
    parse_mode "+7".toList = 7 ∧ ¬ WellFormedOctal "+7".toList := by decide

/-- Claim C2 as amended, at `"+7"`. -/
theorem parse_mode_nonzero_shape_witness :
    1 ≤ "+7".toList.length ∧ "+7".toList.length ≤ 4 ∧
      ∃ ws sign ds, c_str "+7".toList = ws ++ sign ++ ds ∧ (∀ c ∈ ws, isspace c = true) ∧
        (sign = [] ∨ sign = ['+']) ∧ ds ≠ [] ∧ (∀ c ∈ ds, isOctal c = true) ∧
        parse_mode "+7".toList = octalValue ds :=
  parse_mode_nonzero_shape "+7".toList (by decide)


/-! ## The dispatcher: proofs -/

/-- The last `else` of the chain is reached when every test before it fails. -/
theorem dispatch_fallthrough (h : Host) (w : World) (cmd : Str) (rest : List Str)
    (h1 : cmd ≠ "exit".toList) (h2 : cmd ≠ "pwd".toList) (h3 : cmd ≠ "ls".toList)
    (h4 : cmd ≠ "cd".toList) (h5 : ¬ (cmd = "cp".toList ∧ (cmd :: rest).length ≥ 3))
    (h6 : ¬ (cmd = "mv".toList ∧ (cmd :: rest).length ≥ 3))
    (h7 : ¬ (cmd = "rm".toList ∧ (cmd :: rest).length ≥ 2))
    (h8 : ¬ (cmd = "mkdir".toList ∧ (cmd :: rest).length ≥ 2))
    (h9 : ¬ (cmd = "touch".toList ∧ (cmd :: rest).length ≥ 2))
    (h10 : ¬ (cmd = "search".toList ∧ (cmd :: rest).length ≥ 2))
    (h11 : ¬ (cmd = "chmod".toList ∧ (cmd :: rest).length ≥ 3))
    (h12 : cmd ≠ "help".toList) :
    dispatch h w (cmd :: rest) = (Flow.again, w.eprint ErrLine.generic) := by
  simp only [dispatch, h1, h2, h3, h4, h5, h6, h7, h8, h9, h10, h11, h12, if_false]

/-- Claim C7: a token vector whose first token is no command name, or is `cp`, `mv`
or `chmod` with fewer than 3 tokens, or `rm`, `mkdir`, `touch` or `search` with
fewer than 2, makes the dispatch step write the one line `err` to the error
stream and nothing else: standard output, the tree and the working directory
stay as they were, whatever the open system calls would do, and the loop goes
on. -/
theorem dispatch_generic_error (h : Host) (w : World) (cmd : Str) (rest : List Str)
    (hc : cmd ∉ commandNames ∨
      (cmd ∈ ["cp".toList, "mv".toList, "chmod".toList] ∧ (cmd :: rest).length < 3) ∨
      (cmd ∈ ["rm".toList, "mkdir".toList, "touch".toList, "search".toList] ∧
        (cmd :: rest).length < 2)) :
    dispatch h w (cmd :: rest) = (Flow.again, { w with err := w.err ++ [ErrLine.generic] }) ∧
      ErrLine.generic.text = "err\n".toList := by
  refine ⟨?_, rfl⟩
  rcases hc with hc | ⟨hc, hl⟩ | ⟨hc, hl⟩
  · simp only [commandNames, List.map_cons, List.map_nil, List.mem_cons, List.mem_singleton,
      List.not_mem_nil, or_false, not_or] at hc
    obtain ⟨h1, h2, h3, h4, h5, h6, h7, h8, h9, h10, h11, h12⟩ := hc
    exact dispatch_fallthrough h w cmd rest h1 h2 h3 h4 (fun x => h5 x.1) (fun x => h6 x.1)
      (fun x => h7 x.1) (fun x => h8 x.1) (fun x => h9 x.1) (fun x => h10 x.1)
      (fun x => h11 x.1) h12
  · have hl3 : ¬ (cmd :: rest).length ≥ 3 := by omega
    have hl2 : (cmd :: rest).length ≥ 2 → (cmd :: rest).length < 3 := fun _ => hl
    simp only [List.mem_cons, List.mem_singleton, List.not_mem_nil, or_false] at hc
    rcases hc with rfl | rfl | rfl <;>
      apply dispatch_fallthrough <;>
      first
        | decide
        | (intro hh; exact hl3 hh.2)
        | (intro hh; exact absurd hh.1 (by decide))
  · have hl2 : ¬ (cmd :: rest).length ≥ 2 := by omega
    have hl3 : ¬ (cmd :: rest).length ≥ 3 := by omega
    simp only [List.mem_cons, List.mem_singleton, List.not_mem_nil, or_false] at hc
    rcases hc with rfl | rfl | rfl | rfl <;>
      apply dispatch_fallthrough <;>
      first
        | decide
        | (intro hh; exact hl3 hh.2)
        | (intro hh; exact hl2 hh.2)


/-- The `chmod` branch of the chain. -/
theorem dispatch_chmod_eq (h : Host) (w : World) (m p : Str) (rest : List Str) :
    dispatch h w ("chmod".toList :: m :: p :: rest) =
      if parse_mode m = 0 then (Flow.again, w.eprint ErrLine.bad_mode)
      else (Flow.again, World.reportMsg { w with root := (h.chmod w.root w.cwd p (parse_mode m)).2 }
        (h.chmod w.root w.cwd p (parse_mode m)).1) := by
  have h1 : "chmod".toList ≠ "exit".toList := by decide
  have h2 : "chmod".toList ≠ "pwd".toList := by decide
  have h3 : "chmod".toList ≠ "ls".toList := by decide
  have h4 : "chmod".toList ≠ "cd".toList := by decide
  have h5 : "chmod".toList ≠ "cp".toList := by decide
  have h6 : "chmod".toList ≠ "mv".toList := by decide
  have h7 : "chmod".toList ≠ "rm".toList := by decide
  have h8 : "chmod".toList ≠ "mkdir".toList := by decide
  have h9 : "chmod".toList ≠ "touch".toList := by decide
  have h10 : "chmod".toList ≠ "search".toList := by decide
  have hl : ("chmod".toList :: m :: p :: rest).length ≥ 3 := by simp
  simp only [dispatch, h1, h2, h3, h4, h5, h6, h7, h8, h9, h10, hl, if_false, false_and,
    and_self, if_true, List.getD_cons_succ, List.getD_cons_zero]

/-- Reporting the outcome of a system call adds its error text, if any, as one
line to the error stream and leaves the rest of the world alone. -/
theorem reportMsg_eq (w : World) (r : Option Str) :
    World.reportMsg w r = { w with err := w.err ++ (r.map ErrLine.sys).toList } := by
  cases r <;> simp [World.reportMsg, World.eprint]

/-- Claim C8, as the source has it: for `chmod m p ...` with `m` a well-formed octal
string of nonzero value, the world after the step is the one the host's
`chmod`, called on the tree with path `p` and the base-8 value of `m`, leaves:
its tree, and its error text, if any, as one `err: ...` line; no "bad mode"
is written.  "bad mode" is written, with the tree, the working directory and
standard output as they were and `chmod` not called, exactly when
`parse_mode m` is 0, which is never the case for such an `m`. -/
theorem dispatch_chmod (h : Host) (w : World) (m p : Str) (rest : List Str) :
    (WellFormedOctal m → octalValue m ≠ 0 →
      dispatch h w ("chmod".toList :: m :: p :: rest) =
          (Flow.again,
            { root := (h.chmod w.root w.cwd p (octalValue m)).2, cwd := w.cwd, home := w.home,
              out := w.out,
              err := w.err ++ ((h.chmod w.root w.cwd p (octalValue m)).1.map ErrLine.sys).toList }) ∧
        (dispatch h w ("chmod".toList :: m :: p :: rest)).2.err ≠ w.err ++ [ErrLine.bad_mode]) ∧
    ((dispatch h w ("chmod".toList :: m :: p :: rest)).2.err = w.err ++ [ErrLine.bad_mode] ↔
      parse_mode m = 0) ∧
    (parse_mode m = 0 →
      dispatch h w ("chmod".toList :: m :: p :: rest) =
        (Flow.again, { w with err := w.err ++ [ErrLine.bad_mode] })) ∧
    ((dispatch h w ("chmod".toList :: m :: p :: rest)).2.err = w.err ++ [ErrLine.bad_mode] →
      ¬ (WellFormedOctal m ∧ octalValue m ≠ 0)) := by
  have hiff : (dispatch h w ("chmod".toList :: m :: p :: rest)).2.err =
      w.err ++ [ErrLine.bad_mode] ↔ parse_mode m = 0 := by
    rw [dispatch_chmod_eq]
    by_cases hp : parse_mode m = 0
    · simp [hp, World.eprint]
    · simp only [hp, if_false, iff_false, reportMsg_eq]
      cases (h.chmod w.root w.cwd p (parse_mode m)).1 <;> simp
  have hwf : WellFormedOctal m → octalValue m ≠ 0 → parse_mode m ≠ 0 := by
    intro h1 h2
    rw [parse_mode_wellformed m h1]
    exact h2
  refine ⟨?_, hiff, ?_, ?_⟩
  · intro h1 h2
    refine ⟨?_, fun hb => hwf h1 h2 (hiff.mp hb)⟩
    rw [dispatch_chmod_eq, if_neg (hwf h1 h2), parse_mode_wellformed m h1, reportMsg_eq]
  · intro hp
    rw [dispatch_chmod_eq, if_pos hp]
    rfl
  · intro hb hw
    exact hwf hw.1 hw.2 (hiff.mp hb)

/-- Claim C7, at the unknown command `frobnicate`. -/
theorem dispatch_generic_error_witness :
    dispatch quietHost searchWorld ["frobnicate".toList] =
        (Flow.again, { searchWorld with err := searchWorld.err ++ [ErrLine.generic] }) ∧
      ErrLine.generic.text = "err\n".toList :=
  dispatch_generic_error quietHost searchWorld "frobnicate".toList [] (Or.inl (by decide))

/-- Claim C8 fails as stated: `"0"` is a well-formed octal string, yet
`chmod 0 notes` is answered with "bad mode", and `chmod` is not called: the
host that would empty the tree leaves `/w/notes` in place. -/
theorem dispatch_chmod_zero_bad_mode :
    WellFormedOctal "0".toList ∧
      (dispatch wipeHost searchWorld ["chmod".toList, "0".toList, "notes".toList]).2.err =
        searchWorld.err ++ [ErrLine.bad_mode] ∧
      (symlink_status
        (dispatch wipeHost searchWorld ["chmod".toList, "0".toList, "notes".toList]).2
        "/w/notes".toList).1 = FileType.regular := by
  decide

/-- Claim C8 as amended, at `chmod 755 notes`: on the host that names path and
mode in its error text the step writes `err: notes 755`, and on the host that
empties the tree `/w/notes` is gone afterwards. -/
theorem dispatch_chmod_witness :
    (dispatch traceHost searchWorld ["chmod".toList, "755".toList, "notes".toList] =
        (Flow.again,
          { root := (traceHost.chmod searchWorld.root searchWorld.cwd "notes".toList
              (octalValue "755".toList)).2,
            cwd := searchWorld.cwd, home := searchWorld.home, out := searchWorld.out,
            err := searchWorld.err ++
              ((traceHost.chmod searchWorld.root searchWorld.cwd "notes".toList
                (octalValue "755".toList)).1.map ErrLine.sys).toList }) ∧
      (dispatch traceHost searchWorld ["chmod".toList, "755".toList, "notes".toList]).2.err ≠
        searchWorld.err ++ [ErrLine.bad_mode]) ∧
      octalValue "755".toList = 493 ∧
      (dispatch traceHost searchWorld ["chmod".toList, "755".toList, "notes".toList]).2.err =
        [ErrLine.sys "notes 755".toList] ∧
      (symlink_status
        (dispatch wipeHost searchWorld ["chmod".toList, "755".toList, "notes".toList]).2
        "/w/notes".toList).1 = FileType.not_found :=
  ⟨(dispatch_chmod traceHost searchWorld "755".toList "notes".toList []).1 (by decide)
    (by decide), by decide, by decide, by decide⟩

/-! ## Copy and search on the sample trees -/

/-- Claim C9, the source at a failing input: `/s` holds the directory `d` and the
symbolic link `l -> d`; `copy_file_recursive("/s", "/t")` returns true, but
`/t/l` does not exist afterwards (the link was taken for a directory, at the
resolved path `/t/d`), while the claim asks for a symbolic link `/t/l -> d`. -/
theorem copy_file_recursive_symlink_to_dir :
    (symlink_status copyWorld "/s/l".toList).1 = FileType.symlink ∧
    read_symlink copyWorld "/s/l".toList = ("d".toList, none) ∧
    (copy_file_recursive copyWorld "/s".toList "/t".toList).1 = true ∧
    (symlink_status (copy_file_recursive copyWorld "/s".toList "/t".toList).2 "/t/l".toList).1
      = FileType.not_found ∧
    (symlink_status (copy_file_recursive copyWorld "/s".toList "/t".toList).2 "/t/d".toList).1
      = FileType.directory := by
  decide

/-- A symbolic link to a regular file: `/s` holds the file `g` and the link
`lf -> g`.  The copy returns true, `/t/lf` does not exist, and the link was
made at `/t/g`, in place of the copy of the file. -/
theorem copy_file_recursive_symlink_to_file :
    (copy_file_recursive linkWorld "/s".toList "/t".toList).1 = true ∧
    (symlink_status (copy_file_recursive linkWorld "/s".toList "/t".toList).2 "/t/lf".toList).1
      = FileType.not_found ∧
    read_symlink (copy_file_recursive linkWorld "/s".toList "/t".toList).2 "/t/g".toList
      = ("g".toList, none) := by
  decide

/-- Claim C10, the source at a failing input: in `/w` with the file `notes` and the
symbolic link `xyz -> notes`, `search xyz` prints `notes` (the resolved target
relative to `/w`), while the claim asks for the line `xyz`. -/
theorem search_prints_link_target :
    (dispatch quietHost searchWorld ["search".toList, "xyz".toList]).2.out = "notes\n".toList ∧
    (dispatch quietHost searchWorld ["search".toList, "xyz".toList]).2.err = [] := by
  decide

/-- The example of the specification: from `/w`, `search xyz` prints the path of
`a/b/a_xyz_b.txt` relative to `/w` and nothing for the other names. -/
theorem search_deep_example :
    (dispatch quietHost deepWorld ["search".toList, "xyz".toList]).2.out =
      "a/b/a_xyz_b.txt\n".toList := by
  decide

end FileExplorer
